import Mathlib

/-!
Verification of the content-analysis pipeline of `srt2slide` (`utils.py`)
against its natural-language specification.

The Python source is shallowly embedded:
* Python `str` values that the chunker scans character by character are
  modelled as `List Char`; other strings are Lean `String`s.
* Python dicts parsed from YAML are modelled by structures carrying the
  fields the code reads (`.get` with a default becomes `Option`/`getD`,
  dynamic `isinstance` branches become sum types).
* The byte length of `yaml.dump(...)` is an explicit parameter
  `size : ADoc → Nat` of the size adjuster: the code only ever compares it
  with thresholds, so every theorem is proved for an arbitrary measure.
* The LLM is an oracle `LLM`: the response to the k-th chat-completion
  call of a run.  `yaml.safe_load` applied to a resummarization response
  is an abstract parameter `parse : String → Option PyYaml` where
  `PyYaml` models exactly the dynamic shapes the code inspects.
* Japanese prompt preambles are abbreviated to short marker constants;
  no claim depends on prompt wording, only on which content is embedded
  into the prompt and on the prompt being what a failed call truncates.
-/

namespace S2S

/-! ## Python string primitives -/

/-- Python `str.strip()` whitespace test (ASCII part, which is all the
pipeline ever produces around the relevant characters). -/
def pyIsSpace (c : Char) : Bool :=
  c = ' ' ∨ c = '\t' ∨ c = '\n' ∨ c = '\r' ∨ c = '\x0b' ∨ c = '\x0c'

/-- `not s.strip()`: the string contains only whitespace. -/
def isBlank (s : List Char) : Bool := s.all pyIsSpace

/-- Python `math.ceil(a / b)` for integer `a`, `b` with `b ≠ 0`
(exact rational ceiling; `Int.ediv` rounds down for positive divisors and
up for negative ones). -/
def pyCeilDiv (a b : Int) : Int :=
  if 0 < b then Int.ediv (a + b - 1) b else Int.ediv a b

/-! ## Chunker: `split_text` (utils.py lines 12-39)

`text.split('\n\n')` scans left to right for non-overlapping occurrences
of the separator.  `splitNN text = splitNNAux text []` models it. -/

/-- Left-to-right scan of Python `text.split('\n\n')`; `acc` holds the
reversed characters of the part currently being built. -/
def splitNNAux : List Char → List Char → List (List Char)
  | [], acc => [acc.reverse]
  | [c], acc => [(c :: acc).reverse]
  | c :: d :: rest, acc =>
    if c = '\n' ∧ d = '\n' then acc.reverse :: splitNNAux rest []
    else splitNNAux (d :: rest) (c :: acc)

/-- `text.split('\n\n')`. -/
def splitNN (text : List Char) : List (List Char) := splitNNAux text []

/-- `'\n\n'.join(parts)`. -/
def joinNN : List (List Char) → List Char
  | [] => []
  | [p] => p
  | p :: q :: rest => p ++ '\n' :: '\n' :: joinNN (q :: rest)

/-- The non-blank paragraphs of a text:
`[p for p in text.split('\n\n') if p.strip()]`. -/
def pyParagraphs (text : List Char) : List (List Char) :=
  (splitNN text).filter (fun p => !(isBlank p))

/-- `paragraphs[i:i+k]` grouping of `range(0, len(paragraphs), k)`,
for a positive step `k`. -/
def chunksOf : Nat → List α → List (List α)
  | _, [] => []
  | 0, _ :: _ => []
  | k + 1, a :: l => (a :: l).take (k + 1) :: chunksOf (k + 1) ((a :: l).drop (k + 1))
termination_by _ l => l.length
decreasing_by
  simp only [List.drop_succ_cons, List.length_cons, List.length_drop]
  omega

/-- `split_text(text, num_parts)` (utils.py lines 12-39).  `none` models
an uncaught Python exception: `ZeroDivisionError` from
`len(paragraphs) / num_parts` when `num_parts == 0`, and `ValueError`
from `range(0, n, 0)` when the computed paragraphs-per-part is zero
(possible only for negative `num_parts`).  A negative step makes the
`range` empty, so the loop builds no parts at all. -/
def split_text (text : List Char) (num_parts : Int := 8) :
    Option (List (List Char)) :=
  let paragraphs := pyParagraphs text
  if (paragraphs.length : Int) ≤ num_parts then some paragraphs
  else if num_parts = 0 then none
  else
    let ppp := pyCeilDiv paragraphs.length num_parts
    if ppp < 0 then some []
    else if ppp = 0 then none
    else some (((chunksOf ppp.toNat paragraphs).map joinNN).filter
      (fun part => !(isBlank part)))

/-! ### Lemmas about the `'\n\n'` scan -/

/-- Two adjacent characters that are not both `'\n'` (no separator starts
here). -/
def sepFree (a b : Char) : Prop := ¬(a = '\n' ∧ b = '\n')

lemma splitNNAux_ne_nil (s acc : List Char) : splitNNAux s acc ≠ [] := by
  induction s, acc using splitNNAux.induct with
  | case1 acc => simp [splitNNAux]
  | case2 c acc => simp [splitNNAux]
  | case3 c d rest acc h ih =>
    simp only [splitNNAux, if_pos h]
    simp
  | case4 c d rest acc h ih =>
    simpa only [splitNNAux, if_neg h] using ih

lemma chain'_take_one (R : α → α → Prop) (l : List α) : List.Chain' R (l.take 1) := by
  cases l <;> simp

/-- Scanning a separator-free string yields a single part. -/
lemma splitNNAux_eq_single (s acc : List Char) :
    List.Chain' sepFree s → splitNNAux s acc = [acc.reverse ++ s] := by
  induction s, acc using splitNNAux.induct with
  | case1 acc => intro _; simp [splitNNAux]
  | case2 c acc => intro _; simp [splitNNAux]
  | case3 c d rest acc h ih =>
    intro hc
    exact absurd h (List.chain'_cons.mp hc).1
  | case4 c d rest acc h ih =>
    intro hc
    rw [splitNNAux, if_neg h, ih (List.chain'_cons.mp hc).2]
    simp

/-- Scanning a separator-free part that does not end in `'\n'`, followed
by a separator, emits the part and continues. -/
lemma splitNNAux_sep (s : List Char) :
    ∀ acc t, List.Chain' sepFree s → s.getLast? ≠ some '\n' →
    splitNNAux (s ++ '\n' :: '\n' :: t) acc =
      (acc.reverse ++ s) :: splitNNAux t [] := by
  induction s with
  | nil =>
    intro acc t _ _
    rw [List.nil_append, splitNNAux.eq_def]
    simp
  | cons c s ih =>
    intro acc t hc he
    cases s with
    | nil =>
      have hcne : c ≠ '\n' := by
        simp only [List.getLast?_singleton] at he
        simpa using he
      have hcnl : ¬(c = '\n' ∧ '\n' = '\n') := by simp [hcne]
      rw [List.cons_append, List.nil_append, splitNNAux, if_neg hcnl]
      rw [splitNNAux.eq_def]
      simp
    | cons d s' =>
      have hcd : sepFree c d := (List.chain'_cons.mp hc).1
      rw [List.cons_append, List.cons_append, splitNNAux, if_neg hcd,
        ← List.cons_append]
      rw [ih (c :: acc) t (List.chain'_cons.mp hc).2
        (by rwa [List.getLast?_cons_cons] at he)]
      simp

/-- Splitting the blank-line join of a part list recovers the parts,
provided no part contains a separator and no non-final part ends in
`'\n'`. -/
lemma splitNN_joinNN (ps : List (List Char)) (hne : ps ≠ [])
    (hall : ∀ p ∈ ps, List.Chain' sepFree p)
    (hlast : ∀ p ∈ ps.dropLast, p.getLast? ≠ some '\n') :
    splitNN (joinNN ps) = ps := by
  induction ps with
  | nil => exact absurd rfl hne
  | cons p ps ih =>
    cases ps with
    | nil =>
      rw [joinNN, splitNN, splitNNAux_eq_single p [] (hall p (by simp))]
      simp
    | cons q rest =>
      rw [joinNN, splitNN,
        splitNNAux_sep p [] (joinNN (q :: rest)) (hall p (by simp))
          (hlast p (by rw [List.dropLast_cons_of_ne_nil (by simp)]; simp))]
      rw [List.reverse_nil, List.nil_append]
      have hrec : splitNN (joinNN (q :: rest)) = q :: rest := by
        refine ih (by simp) (fun x hx => hall x (by simp [hx])) (fun x hx => ?_)
        refine hlast x ?_
        rw [List.dropLast_cons_of_ne_nil (by simp)]
        exact List.mem_cons_of_mem _ hx
      rw [splitNN] at hrec
      rw [hrec]

/-- The parts produced by the scan are separator-free, and no part other
than the last ends in `'\n'`. -/
lemma splitNNAux_parts (s acc : List Char) :
    List.Chain' sepFree (acc.reverse ++ s.take 1) →
    (∀ p ∈ splitNNAux s acc, List.Chain' sepFree p) ∧
    (∀ p ∈ (splitNNAux s acc).dropLast, p.getLast? ≠ some '\n') := by
  induction s, acc using splitNNAux.induct with
  | case1 acc =>
    intro h
    simp only [List.take_nil, List.append_nil] at h
    simp [splitNNAux, h]
  | case2 c acc =>
    intro h
    have h' : List.Chain' sepFree (acc.reverse ++ [c]) := h
    constructor
    · intro p hp
      simp only [splitNNAux, List.mem_singleton] at hp
      subst hp
      simpa using h'
    · intro p hp
      simp [splitNNAux] at hp
  | case3 c d rest acc h ih =>
    intro hc0
    obtain ⟨hc1, hc2⟩ := h
    subst hc1; subst hc2
    have hc : List.Chain' sepFree (acc.reverse ++ ['\n']) := hc0
    have hAcc : List.Chain' sepFree acc.reverse :=
      (List.chain'_append.mp hc).1
    have hEnd : acc.reverse.getLast? ≠ some '\n' := by
      intro hx
      have := (List.chain'_append.mp hc).2.2 '\n' (by rw [hx]; rfl) '\n' rfl
      exact this ⟨rfl, rfl⟩
    have hTail := ih (by simpa using chain'_take_one sepFree rest)
    rw [splitNNAux, if_pos ⟨rfl, rfl⟩]
    constructor
    · intro p hp
      rcases List.mem_cons.mp hp with h1 | h2
      · subst h1; exact hAcc
      · exact hTail.1 p h2
    · intro p hp
      rw [List.dropLast_cons_of_ne_nil (splitNNAux_ne_nil rest [])] at hp
      rcases List.mem_cons.mp hp with h1 | h2
      · subst h1; exact hEnd
      · exact hTail.2 p h2
  | case4 c d rest acc h ih =>
    intro hc0
    have hc : List.Chain' sepFree (acc.reverse ++ [c]) := hc0
    rw [splitNNAux, if_neg h]
    refine ih ?_
    show List.Chain' sepFree ((c :: acc).reverse ++ [d])
    rw [List.reverse_cons, List.append_assoc]
    refine List.chain'_append.mpr ⟨(List.chain'_append.mp hc).1, ?_, ?_⟩
    · exact List.chain'_cons.mpr ⟨h, List.chain'_singleton d⟩
    · intro x hx y hy
      have hy' : y = c := by
        have := hy
        simp only [List.cons_append, List.head?_cons] at this
        exact (Option.mem_some_iff.mp this).symm
      subst hy'
      exact (List.chain'_append.mp hc).2.2 x hx y rfl

lemma dropLast_filter_subset (f : α → Bool) (l : List α) :
    (l.filter f).dropLast ⊆ l.dropLast := by
  induction l using List.reverseRecOn with
  | nil => simp
  | append_singleton l a ih =>
    rw [List.filter_append, List.dropLast_concat, List.filter_singleton]
    cases hfa : f a with
    | false =>
      rw [cond_false, List.append_nil]
      exact fun x hx => List.dropLast_subset l (ih hx)
    | true =>
      rw [cond_true, List.dropLast_concat]
      exact fun x hx => List.mem_of_mem_filter hx

/-- Properties of the non-blank paragraph list of a text. -/
lemma pyParagraphs_props (text : List Char) :
    (∀ p ∈ pyParagraphs text, List.Chain' sepFree p ∧ isBlank p = false) ∧
    (∀ p ∈ (pyParagraphs text).dropLast, p.getLast? ≠ some '\n') := by
  have h := splitNNAux_parts text []
    (by simpa using chain'_take_one sepFree text)
  constructor
  · intro p hp
    refine ⟨h.1 p (List.mem_of_mem_filter hp), ?_⟩
    have := List.of_mem_filter hp
    simpa using this
  · intro p hp
    exact h.2 p (dropLast_filter_subset _ _ hp)

/-- Re-splitting the blank-line join of the non-blank paragraphs of a
text recovers exactly those paragraphs. -/
lemma pyParagraphs_joinNN (text : List Char) (hne : pyParagraphs text ≠ []) :
    pyParagraphs (joinNN (pyParagraphs text)) = pyParagraphs text := by
  have h := pyParagraphs_props text
  rw [pyParagraphs, splitNN_joinNN (pyParagraphs text) hne
    (fun p hp => (h.1 p hp).1) h.2]
  rw [List.filter_eq_self]
  intro p hp
  simp [(h.1 p hp).2]

/-! ### Lemmas about regrouping paragraphs into chunks -/

lemma joinNN_cons_of_ne_nil (p : List Char) (ps : List (List Char))
    (h : ps ≠ []) : joinNN (p :: ps) = p ++ '\n' :: '\n' :: joinNN ps := by
  cases ps with
  | nil => exact absurd rfl h
  | cons q rest => rw [joinNN]

lemma joinNN_append (as bs : List (List Char)) (ha : as ≠ []) (hb : bs ≠ []) :
    joinNN (as ++ bs) = joinNN as ++ '\n' :: '\n' :: joinNN bs := by
  induction as with
  | nil => exact absurd rfl ha
  | cons p as ih =>
    cases as with
    | nil =>
      rw [List.cons_append, List.nil_append, joinNN_cons_of_ne_nil p bs hb,
        joinNN]
    | cons q rest =>
      rw [List.cons_append, joinNN_cons_of_ne_nil p ((q :: rest) ++ bs)
        (by simp), joinNN_cons_of_ne_nil p (q :: rest) (by simp),
        ih (by simp)]
      simp

lemma chunksOf_ne_nil (k : Nat) (a : α) (l : List α) :
    chunksOf (k + 1) (a :: l) ≠ [] := by
  rw [chunksOf]
  simp

/-- Joining the per-chunk joins gives the join of all paragraphs. -/
lemma joinNN_chunks (k : Nat) (ps : List (List Char)) :
    joinNN ((chunksOf (k + 1) ps).map joinNN) = joinNN ps := by
  suffices H : ∀ n (ps : List (List Char)), ps.length = n →
      joinNN ((chunksOf (k + 1) ps).map joinNN) = joinNN ps from
    H ps.length ps rfl
  intro n
  induction n using Nat.strong_induction_on with
  | _ n ih =>
    intro ps hn
    cases ps with
    | nil => rw [chunksOf]; rfl
    | cons a l =>
      rw [chunksOf, List.map_cons]
      by_cases hd : (a :: l).drop (k + 1) = []
      · rw [hd, chunksOf, List.map_nil, joinNN,
          List.take_of_length_le (List.drop_eq_nil_iff.mp hd)]
      · obtain ⟨b, m, hbm⟩ : ∃ b m, (a :: l).drop (k + 1) = b :: m := by
          cases hdrop : (a :: l).drop (k + 1) with
          | nil => exact absurd hdrop hd
          | cons b m => exact ⟨b, m, rfl⟩
        have hlen : ((a :: l).drop (k + 1)).length < n := by
          rw [← hn, List.length_drop]
          simp
          omega
        have hrec := ih _ hlen ((a :: l).drop (k + 1)) rfl
        rw [joinNN_cons_of_ne_nil _ _ (by
          rw [hbm]
          exact fun hmap => chunksOf_ne_nil k b m (List.map_eq_nil_iff.mp hmap))]
        rw [hrec]
        conv_rhs => rw [← List.take_append_drop (k + 1) (a :: l)]
        rw [joinNN_append _ _ (by simp) hd]

lemma chunksOf_mem (k : Nat) (l : List α) (g : List α)
    (hg : g ∈ chunksOf (k + 1) l) : g ≠ [] ∧ ∀ p ∈ g, p ∈ l := by
  suffices H : ∀ n (l : List α), l.length = n → g ∈ chunksOf (k + 1) l →
      g ≠ [] ∧ ∀ p ∈ g, p ∈ l from H l.length l rfl hg
  clear hg
  intro n
  induction n using Nat.strong_induction_on with
  | _ n ih =>
    intro l hn hg
    cases l with
    | nil => rw [chunksOf] at hg; simp at hg
    | cons a l =>
      rw [chunksOf, List.mem_cons] at hg
      rcases hg with h1 | h2
      · subst h1
        refine ⟨by simp, fun p hp => List.take_subset _ _ hp⟩
      · have hlen : ((a :: l).drop (k + 1)).length < n := by
          rw [← hn, List.length_drop]
          simp
          omega
        have := ih _ hlen _ rfl h2
        exact ⟨this.1, fun p hp => List.drop_subset _ _ (this.2 p hp)⟩

lemma joinNN_not_blank (g : List (List Char)) (hne : g ≠ [])
    (hall : ∀ p ∈ g, isBlank p = false) : isBlank (joinNN g) = false := by
  cases g with
  | nil => exact absurd rfl hne
  | cons p rest =>
    have hp : isBlank p = false := hall p (by simp)
    cases rest with
    | nil => rw [joinNN]; exact hp
    | cons q r =>
      rw [joinNN]
      rw [isBlank, List.all_append] at *
      simp only [Bool.and_eq_false_iff]
      left
      exact hp

/-! ### Claims C3 -/

/-- The claim C3 as frozen is false at a negative `numParts`:
`split_text("a", -1)` returns `[]` in the source (the grouping `range`
has a negative step and is empty), so joining the returned chunks yields
the empty text, losing the paragraph `"a"`. -/
theorem split_text_neg_counterexample :
    split_text ['a'] (-1) = some [] ∧
    pyParagraphs (joinNN []) = [] ∧
    pyParagraphs ['a'] = [['a']] := by
  refine ⟨by decide, by decide, by decide⟩

/-- C3 (amended to `numParts ≥ 1`): whenever `split_text` returns chunks
for a positive `numParts`, joining them with blank-line separators
reconstructs exactly the original sequence of non-blank paragraphs of the
text, in order. -/
theorem split_text_reconstructs (text : List Char) (n : Int) (hn : 1 ≤ n)
    (chunks : List (List Char)) (h : split_text text n = some chunks) :
    pyParagraphs (joinNN chunks) = pyParagraphs text := by
  rw [split_text] at h
  by_cases hle : ((pyParagraphs text).length : Int) ≤ n
  · rw [if_pos hle, Option.some_inj] at h
    subst h
    by_cases hnil : pyParagraphs text = []
    · rw [hnil]
      decide
    · exact pyParagraphs_joinNN text hnil
  · have hn0 : n ≠ 0 := by omega
    have hL : 1 ≤ ((pyParagraphs text).length : Int) := by omega
    have hppp : 1 ≤ pyCeilDiv (pyParagraphs text).length n := by
      rw [pyCeilDiv, if_pos (by omega : (0 : Int) < n)]
      show 1 ≤ ((pyParagraphs text).length + n - 1) / n
      rw [Int.le_ediv_iff_mul_le (by omega : (0 : Int) < n)]
      omega
    rw [if_neg hle, if_neg hn0] at h
    simp only [if_neg (by omega : ¬ pyCeilDiv (pyParagraphs text).length n < 0),
      if_neg (by omega : ¬ pyCeilDiv (pyParagraphs text).length n = 0),
      Option.some_inj] at h
    subst h
    obtain ⟨k, hk⟩ : ∃ k, (pyCeilDiv (pyParagraphs text).length n).toNat
        = k + 1 := ⟨(pyCeilDiv (pyParagraphs text).length n).toNat - 1, by omega⟩
    rw [hk]
    have hprops := pyParagraphs_props text
    have hfe : ((chunksOf (k + 1) (pyParagraphs text)).map joinNN).filter
        (fun part => !(isBlank part)) =
        (chunksOf (k + 1) (pyParagraphs text)).map joinNN := by
      rw [List.filter_eq_self]
      intro part hpart
      obtain ⟨g, hg, hgj⟩ := List.mem_map.mp hpart
      have hgm := chunksOf_mem k (pyParagraphs text) g hg
      rw [← hgj]
      simp [joinNN_not_blank g hgm.1
        (fun p hp => (hprops.1 p (hgm.2 p hp)).2)]
    rw [hfe, joinNN_chunks k (pyParagraphs text)]
    exact pyParagraphs_joinNN text (by
      intro hnil
      rw [hnil] at hL
      simp at hL)

/-- Witness: a concrete successful run of the amended C3. -/
theorem split_text_reconstructs_witness :
    pyParagraphs (joinNN [['a']]) = pyParagraphs ['a'] :=
  split_text_reconstructs ['a'] 1 (by decide) [['a']] (by decide)

/-! ## Data model of parsed chunk results and merged documents

A chunk analysis result is a YAML mapping with an optional
`lecture_name`, and a list of sections; a section read by the merge loop
has an optional `name` (`section.get("name")`) and a slide list, each
slide carrying a required `title` and `content` (`slide["title"]`,
`slide["content"]` — the merge indexes them directly) and an optional
`teaching_points` list (`slide.get("teaching_points", [])`).  `content`
is either a YAML list of strings or a scalar string. -/

structure RSlide where
  title : String
  content : List String ⊕ String
  teaching_points : List String
deriving DecidableEq

structure RSection where
  name : Option String
  slides : List RSlide
deriving DecidableEq

structure ChunkResult where
  lecture_name : Option String
  sections : List RSection
deriving DecidableEq

/-- A slide of a merged / partitioned / adjusted document.  The size
adjuster reads `content` and `teaching_points` through `.get` and
`isinstance` checks, so both are optional and sum-typed. -/
structure ASlide where
  number : String
  title : String
  content : Option (List String ⊕ String)
  teaching_points : Option (String ⊕ List String)
deriving DecidableEq

/-! ## Document Merger (utils.py lines 378-404) -/

/-- The slide dict built by the merge loop for the `i`-th slide (0-based)
of one section occurrence: `{"number": str(slide_num), "title":
slide["title"], "content": slide["content"], "teaching_points":
"\n".join(slide.get("teaching_points", []))}`. -/
def mergeSlide (i : Nat) (s : RSlide) : ASlide :=
  { number := toString (i + 1), title := s.title, content := some s.content,
    teaching_points :=
      some (Sum.inl (String.intercalate "\n" s.teaching_points)) }

/-- `enumerate(section.get("slides", []), 1)` over one occurrence. -/
def numberSlides (slides : List RSlide) : List ASlide :=
  slides.enum.map (fun p => mergeSlide p.1 p.2)

/-- `section.get("name")` followed by the falsy test
`if not section_name: continue`. -/
def validName (sec : RSection) : Option String :=
  match sec.name with
  | none => none
  | some nm => if nm = "" then none else some nm

/-- One step of the merge loop over `sections_dict` / `section_order`,
represented as an association list in first-seen key order. -/
def addSection (acc : List (String × List ASlide)) (sec : RSection) :
    List (String × List ASlide) :=
  match validName sec with
  | none => acc
  | some nm =>
    if acc.any (fun e => e.1 = nm) then
      acc.map (fun e =>
        if e.1 = nm then (e.1, e.2 ++ numberSlides sec.slides) else e)
    else acc ++ [(nm, numberSlides sec.slides)]

/-- The merge step of `analyze_content`: walk the chunk results in order,
and inside each the sections in order. -/
def mergeSections (parts : List ChunkResult) :
    List (String × List ASlide) :=
  parts.foldl (fun acc part => part.sections.foldl addSection acc) []

/-! ### Specification-side description of the merge -/

/-- All valid section names in traversal order. -/
def allNames (parts : List ChunkResult) : List String :=
  ((parts.map (fun p => p.sections)).flatten).filterMap validName

/-- First-seen deduplication of a name list. -/
def firstSeen (l : List String) : List String :=
  l.foldl (fun acc nm => if nm ∈ acc then acc else acc ++ [nm]) []

/-- The slide lists of the occurrences of section `nm`, in traversal
order, each numbered from 1 on its own. -/
def occurrenceBlocks (secs : List RSection) (nm : String) :
    List (List RSlide) :=
  secs.filterMap (fun s => if validName s = some nm then some s.slides else none)

/-- The slides the merged section `nm` ends up with. -/
def occurrenceSlides (secs : List RSection) (nm : String) : List ASlide :=
  ((occurrenceBlocks secs nm).map numberSlides).flatten

/-- What the merge produces, described non-operationally. -/
def mergeSpecList (secs : List RSection) : List (String × List ASlide) :=
  (firstSeen (secs.filterMap validName)).map
    (fun nm => (nm, occurrenceSlides secs nm))

/-! ### Characterization of the merge -/

lemma mem_firstSeen_foldl (l : List String) :
    ∀ (acc : List String) (a : String),
      (a ∈ l.foldl (fun acc nm => if nm ∈ acc then acc else acc ++ [nm]) acc) ↔
      (a ∈ acc ∨ a ∈ l) := by
  induction l with
  | nil => intro acc a; simp
  | cons b l ih =>
    intro acc a
    rw [List.foldl_cons, ih]
    by_cases hb : b ∈ acc
    · rw [if_pos hb]
      constructor
      · rintro (h | h)
        · exact Or.inl h
        · exact Or.inr (List.mem_cons_of_mem _ h)
      · rintro (h | h)
        · exact Or.inl h
        · rcases List.mem_cons.mp h with h1 | h2
          · subst h1; exact Or.inl hb
          · exact Or.inr h2
    · rw [if_neg hb]
      simp only [List.mem_append, List.mem_singleton, List.mem_cons]
      tauto

lemma mem_firstSeen (l : List String) (a : String) :
    a ∈ firstSeen l ↔ a ∈ l := by
  rw [firstSeen, mem_firstSeen_foldl]
  simp

lemma occurrenceSlides_append (secs : List RSection) (s : RSection)
    (nm : String) :
    occurrenceSlides (secs ++ [s]) nm = occurrenceSlides secs nm ++
      (if validName s = some nm then numberSlides s.slides else []) := by
  rw [occurrenceSlides, occurrenceBlocks, List.filterMap_append,
    List.map_append, List.flatten_append]
  rw [show occurrenceSlides secs nm =
    ((occurrenceBlocks secs nm).map numberSlides).flatten from rfl,
    occurrenceBlocks]
  congr 1
  by_cases h : validName s = some nm
  · rw [if_pos h]
    have h2 : (fun s => if validName s = some nm then some s.slides else none) s
        = some s.slides := if_pos h
    simp only [List.filterMap_cons, h2, List.filterMap_nil]
    simp
  · rw [if_neg h]
    have h2 : (fun s => if validName s = some nm then some s.slides else none) s
        = none := if_neg h
    simp only [List.filterMap_cons, h2, List.filterMap_nil]
    simp

lemma occurrenceSlides_of_not_mem (secs : List RSection) (nm : String)
    (h : nm ∉ secs.filterMap validName) : occurrenceSlides secs nm = [] := by
  rw [occurrenceSlides, occurrenceBlocks]
  have : secs.filterMap
      (fun s => if validName s = some nm then some s.slides else none) = [] := by
    rw [List.filterMap_eq_nil_iff]
    intro s hs
    by_cases hv : validName s = some nm
    · exact absurd (List.mem_filterMap.mpr ⟨s, hs, hv⟩) h
    · simp [hv]
  rw [this]
  rfl

lemma firstSeen_append_singleton (l : List String) (a : String) :
    firstSeen (l ++ [a]) =
      if a ∈ firstSeen l then firstSeen l else firstSeen l ++ [a] := by
  rw [firstSeen, List.foldl_append, List.foldl_cons, List.foldl_nil]
  rfl

/-- The merge loop computes exactly `mergeSpecList` of the flattened
section stream. -/
lemma foldl_addSection_eq (secs : List RSection) :
    secs.foldl addSection [] = mergeSpecList secs := by
  induction secs using List.reverseRecOn with
  | nil => rfl
  | append_singleton l s ih =>
    rw [List.foldl_append, List.foldl_cons, List.foldl_nil, ih]
    cases hv : validName s with
    | none =>
      simp only [addSection, hv]
      rw [mergeSpecList, mergeSpecList, List.filterMap_append]
      simp only [List.filterMap_cons, hv, List.filterMap_nil, List.append_nil]
      refine List.map_congr_left (fun nm hnm => ?_)
      rw [occurrenceSlides_append, hv]
      simp
    | some nm =>
      simp only [addSection, hv]
      have hkeys : ∀ a, ((mergeSpecList l).any (fun e => e.1 = a) = true) ↔
          a ∈ firstSeen (l.filterMap validName) := by
        intro a
        rw [List.any_eq_true]
        constructor
        · rintro ⟨e, he, heq⟩
          obtain ⟨nm', hnm', rfl⟩ := List.mem_map.mp he
          have h1 : nm' = a := by simpa using heq
          subst h1
          exact hnm'
        · intro ha
          exact ⟨(a, occurrenceSlides l a), List.mem_map.mpr ⟨a, ha, rfl⟩,
            by simp⟩
      have hnames : (l ++ [s]).filterMap validName =
          l.filterMap validName ++ [nm] := by
        rw [List.filterMap_append]
        simp [List.filterMap_cons, hv]
      by_cases hmem : nm ∈ firstSeen (l.filterMap validName)
      · rw [if_pos ((hkeys nm).mpr hmem)]
        rw [mergeSpecList, List.map_map]
        conv_rhs => rw [mergeSpecList, hnames, firstSeen_append_singleton]
        rw [if_pos hmem]
        refine List.map_congr_left (fun a ha => ?_)
        simp only [Function.comp_apply]
        by_cases hanm : a = nm
        · subst hanm
          rw [if_pos rfl, occurrenceSlides_append, if_pos hv]
        · rw [if_neg (by simpa using hanm), occurrenceSlides_append, hv]
          rw [if_neg (by simpa using fun h => hanm (Eq.symm h))]
          rw [List.append_nil]
      · rw [if_neg (by rw [hkeys nm]; exact hmem)]
        rw [mergeSpecList]
        conv_rhs => rw [mergeSpecList, hnames, firstSeen_append_singleton]
        rw [if_neg hmem, List.map_append]
        congr 1
        · refine List.map_congr_left (fun a ha => ?_)
          rw [occurrenceSlides_append, hv]
          have hanm : a ≠ nm := by
            intro h
            subst h
            exact hmem ha
          rw [if_neg (by simpa using fun h => hanm h.symm), List.append_nil]
        · rw [List.map_singleton, occurrenceSlides_append, if_pos hv,
            occurrenceSlides_of_not_mem l nm
              (fun h => hmem ((mem_firstSeen _ _).mpr h))]
          rw [List.nil_append]

/-- `mergeSections` over chunk results is the fold over the flattened
section stream. -/
lemma mergeSections_eq_foldl (parts : List ChunkResult) :
    mergeSections parts =
      ((parts.map (fun p => p.sections)).flatten).foldl addSection [] := by
  rw [mergeSections]
  suffices H : ∀ (acc : List (String × List ASlide)),
      parts.foldl (fun acc part => part.sections.foldl addSection acc) acc =
      ((parts.map (fun p => p.sections)).flatten).foldl addSection acc by
    exact H []
  induction parts with
  | nil => intro acc; rfl
  | cons p parts ih =>
    intro acc
    rw [List.foldl_cons, List.map_cons, List.flatten_cons, List.foldl_append,
      ih]

/-! ### Claims C1 and C10 -/

/-- `str(i)` numbering `1..n` — what "contiguous 1-based numbering"
means. -/
def seqNumbers (n : Nat) : List String :=
  (List.range n).map (fun i => toString (i + 1))

lemma numberSlides_numbers (sl : List RSlide) :
    (numberSlides sl).map (fun s => s.number) = seqNumbers sl.length := by
  rw [numberSlides, List.map_map, seqNumbers, ← List.enum_map_fst sl,
    List.map_map]
  rfl

/-- A one-slide section named "A". -/
def cexSection : RSection :=
  { name := some "A",
    slides := [{ title := "t", content := Sum.inl ["x"],
                 teaching_points := [] }] }

/-- A chunk result containing `cexSection`. -/
def cexChunk : ChunkResult :=
  { lecture_name := some "L", sections := [cexSection] }

/-- Counterexample to C1 as frozen: two chunks each contributing one
slide to section "A" merge into a section whose slide numbers are
`["1", "1"]` — numbering restarts at 1 for the second chunk instead of
continuing with "2". -/
theorem merge_numbering_counterexample :
    (mergeSections [cexChunk, cexChunk]).map
      (fun e => (e.1, e.2.map (fun s => s.number))) = [("A", ["1", "1"])] ∧
    ["1", "1"] ≠ seqNumbers 2 := by
  constructor
  · rfl
  · decide

/-- C1 (amended): the merge registers sections in first-seen order
across chunks, and the slides of a merged section are the concatenation
of its per-occurrence blocks, each block independently renumbered
`1..k` (so the numbering restarts at 1 whenever a later occurrence of an
already-registered section contributes slides, rather than continuing). -/
theorem merge_first_seen_order_and_numbering (parts : List ChunkResult) :
    (mergeSections parts).map Prod.fst = firstSeen (allNames parts) ∧
    mergeSections parts = (firstSeen (allNames parts)).map
      (fun nm =>
        (nm, occurrenceSlides ((parts.map (fun p => p.sections)).flatten) nm)) ∧
    (mergeSections parts).map (fun e => e.2.map (fun s => s.number)) =
      (firstSeen (allNames parts)).map (fun nm =>
        ((occurrenceBlocks ((parts.map (fun p => p.sections)).flatten) nm).map
          (fun block => seqNumbers block.length)).flatten) := by
  have h2 : mergeSections parts = (firstSeen (allNames parts)).map
      (fun nm =>
        (nm, occurrenceSlides ((parts.map (fun p => p.sections)).flatten) nm)) := by
    rw [mergeSections_eq_foldl, foldl_addSection_eq, mergeSpecList, allNames]
  refine ⟨?_, h2, ?_⟩
  · rw [h2, List.map_map]
    rw [show (Prod.fst ∘ fun nm =>
        (nm, occurrenceSlides ((parts.map (fun p => p.sections)).flatten) nm))
        = id from rfl, List.map_id]
  · rw [h2, List.map_map]
    refine List.map_congr_left (fun nm _ => ?_)
    simp only [Function.comp_apply]
    rw [occurrenceSlides, List.map_flatten, List.map_map]
    congr 1
    refine List.map_congr_left (fun block _ => ?_)
    exact numberSlides_numbers block

/-- Chunk results with the invalid-name sections removed. -/
def dropInvalidSections (parts : List ChunkResult) : List ChunkResult :=
  parts.map (fun p =>
    { p with sections := p.sections.filter (fun s => (validName s).isSome) })

lemma foldl_addSection_filter (secs : List RSection) :
    ∀ acc, (secs.filter (fun s => (validName s).isSome)).foldl addSection acc
      = secs.foldl addSection acc := by
  induction secs with
  | nil => intro acc; rfl
  | cons s rest ih =>
    intro acc
    rw [List.filter_cons]
    cases hv : validName s with
    | none =>
      rw [if_neg (by simp [hv])]
      rw [List.foldl_cons, ih]
      congr 1
      simp only [addSection, hv]
    | some nm =>
      rw [if_pos (by simp [hv])]
      rw [List.foldl_cons, List.foldl_cons, ih]

/-- C10: a section whose `name` is absent or empty is silently skipped
by the merge — removing all such sections beforehand leaves the merged
result unchanged (so they contribute no section and no slides), and the
merge is a total function (no error is raised). -/
theorem merge_skips_invalid_name_sections (parts : List ChunkResult) :
    mergeSections parts = mergeSections (dropInvalidSections parts) := by
  rw [mergeSections, mergeSections]
  suffices H : ∀ acc,
      parts.foldl (fun acc part => part.sections.foldl addSection acc) acc =
      (dropInvalidSections parts).foldl
        (fun acc part => part.sections.foldl addSection acc) acc from H []
  induction parts with
  | nil => intro acc; rfl
  | cons p parts ih =>
    intro acc
    rw [dropInvalidSections, List.map_cons, List.foldl_cons, List.foldl_cons]
    rw [show ({ p with sections :=
        p.sections.filter (fun s => (validName s).isSome) } : ChunkResult).sections
        = p.sections.filter (fun s => (validName s).isSome) from rfl]
    rw [foldl_addSection_filter p.sections acc]
    exact ih _

/-! ## Document Partitioner (utils.py lines 406-432)

`analyze_content` builds `final_yaml` by slicing `section_order` into 8
ranges with `sections_per_file = max(1, len(section_order) // 8)`, the
last range absorbing the remainder, renumbering the sections of each
file from 1 and skipping files with no sections. -/

structure ASection where
  number : String
  name : String
  slides : List ASlide
deriving DecidableEq

structure ADoc where
  lecture_name : String
  sections : List ASection
deriving DecidableEq

/-- `sections_per_file = max(1, len(section_order) // 8)`. -/
def sectionsPerFile (merged : List (String × List ASlide)) : Nat :=
  max 1 (merged.length / 8)

/-- `section_order[start_idx:end_idx]` for file `i`. -/
def partNames (merged : List (String × List ASlide)) (i : Nat) :
    List String :=
  ((merged.map Prod.fst).drop (i * sectionsPerFile merged)).take
    ((if i < 7 then (i + 1) * sectionsPerFile merged else merged.length) -
      i * sectionsPerFile merged)

/-- The `file_sections` list for file `i`: sections renumbered from 1,
with the slides looked up in `sections_dict`. -/
def partSections (merged : List (String × List ASlide)) (i : Nat) :
    List ASection :=
  ((partNames merged i).enumFrom 1).map (fun p =>
    { number := toString p.1, name := p.2,
      slides := (merged.lookup p.2).getD [] })

/-- The partition step: the 8 candidate files, keeping only those with a
non-empty section list. -/
def partitionDocs (lecture : String)
    (merged : List (String × List ASlide)) : List ADoc :=
  (List.range 8).filterMap (fun i =>
    if (partSections merged i).isEmpty then none
    else some { lecture_name := lecture, sections := partSections merged i })

lemma partSections_names (merged : List (String × List ASlide)) (i : Nat) :
    (partSections merged i).map (fun s => s.name) = partNames merged i := by
  rw [partSections, List.map_map]
  rw [show ((fun s : ASection => s.name) ∘ fun p : Nat × String =>
      ({ number := toString p.1, name := p.2,
         slides := (merged.lookup p.2).getD [] } : ASection)) =
      Prod.snd from rfl]
  exact List.enumFrom_map_snd 1 _

lemma partSections_isEmpty (merged : List (String × List ASlide)) (i : Nat)
    (h : (partSections merged i).isEmpty = true) : partNames merged i = [] := by
  rw [List.isEmpty_iff] at h
  have := congrArg (fun l => List.map (fun s : ASection => s.name) l) h
  simpa [partSections_names] using this

lemma flatten_partition_names (lecture : String)
    (merged : List (String × List ASlide)) (l : List Nat) :
    (((l.filterMap (fun i =>
        if (partSections merged i).isEmpty then none
        else some { lecture_name := lecture,
                    sections := partSections merged i })).map
      (fun d : ADoc => d.sections.map (fun s => s.name))).flatten) =
    ((l.map (fun i => partNames merged i)).flatten) := by
  induction l with
  | nil => rfl
  | cons i l ih =>
    rw [List.map_cons, List.flatten_cons, List.filterMap_cons]
    cases he : (partSections merged i).isEmpty with
    | true =>
      have hn := partSections_isEmpty merged i he
      simp only [he, if_true, hn, List.nil_append]
      exact ih
    | false =>
      simp only [he, Bool.false_eq_true, if_false]
      rw [List.map_cons, List.flatten_cons, partSections_names, ih]

lemma slices_flatten (s : Nat) (l : List α) (n : Nat) :
    ((List.range n).map (fun i => (l.drop (i * s)).take s)).flatten =
      l.take (n * s) := by
  induction n with
  | zero => simp
  | succ n ih =>
    rw [List.range_succ, List.map_append, List.flatten_append, ih]
    rw [List.map_singleton, Nat.succ_mul, List.take_add]
    simp

/-- C2: the names of the sections of the partition files, concatenated
in partition order, are exactly `section_order` — no section is
duplicated or dropped in the split into (up to) 8 files. -/
theorem partition_coverage (lecture : String)
    (merged : List (String × List ASlide)) (_h : 0 < merged.length) :
    ((partitionDocs lecture merged).map
      (fun d => d.sections.map (fun s => s.name))).flatten =
      merged.map Prod.fst := by
  have hlast : partNames merged 7 =
      (merged.map Prod.fst).drop (7 * sectionsPerFile merged) := by
    rw [partNames, if_neg (by omega : ¬ (7 : Nat) < 7)]
    refine List.take_of_length_le ?_
    rw [List.length_drop, List.length_map]
  have hmid : ∀ i ∈ List.range 7, partNames merged i =
      (((merged.map Prod.fst).drop (i * sectionsPerFile merged)).take
        (sectionsPerFile merged)) := by
    intro i hi
    have hi7 : i < 7 := List.mem_range.mp hi
    rw [partNames, if_pos hi7, Nat.add_mul, Nat.one_mul,
      Nat.add_sub_cancel_left]
  rw [partitionDocs, flatten_partition_names]
  rw [show (8 : Nat) = 7 + 1 from rfl, List.range_succ, List.map_append,
    List.flatten_append, List.map_singleton, List.flatten_cons,
    List.flatten_nil, List.append_nil, hlast]
  rw [List.map_congr_left hmid, slices_flatten]
  exact List.take_append_drop _ _

/-- Witness for C2 at a one-section merged document. -/
theorem partition_coverage_witness :
    ((partitionDocs "L" [("A", [])]).map
      (fun d => d.sections.map (fun s => s.name))).flatten =
      [("A", ([] : List ASlide))].map Prod.fst :=
  partition_coverage "L" [("A", [])] (by decide)

/-! ## Size Adjuster (utils.py lines 153-317)

The LLM is an oracle giving the outcome of the k-th chat-completion call
of the run; the YAML serialization length `len(yaml.dump(...))` is an
abstract measure `size : ADoc → Nat` (the code only compares it against
thresholds); `yaml.safe_load` on a resummarization response is an
abstract `parse` whose result `PyYaml` models the dynamic shapes the
code inspects.  The per-slide compression collects `(tag, slide,
awaited-result)` tasks and applies them afterwards; the calls are
awaited in collection order and every write depends only on the same
slide's own results, so it is modelled slide by slide.  The long
Japanese prompt preambles are abbreviated to short markers; no claim
depends on the prompt wording. -/

structure TransportError where
  message : String
deriving DecidableEq

/-- The LLM oracle: the outcome of the k-th chat-completion call. -/
structure LLM where
  resp : Nat → Except TransportError String

/-- Python `s.split("\n")` (single-character separator scan). -/
def splitNl : List Char → List Char → List (List Char)
  | [], acc => [acc.reverse]
  | c :: rest, acc =>
    if c = '\n' then acc.reverse :: splitNl rest []
    else splitNl rest (c :: acc)

/-- Python `s.strip()`. -/
def pyStrip (l : List Char) : List Char :=
  ((l.dropWhile pyIsSpace).reverse.dropWhile pyIsSpace).reverse

/-- `s.strip()` on a `String`. -/
def pyStripStr (s : String) : String := String.mk (pyStrip s.toList)

/-- `s[:n]` for `n ≥ 0`. -/
def pyTakeStr (s : String) (n : Nat) : String := String.mk (s.toList.take n)

/-- `truncate_content(content, max_length)` (utils.py lines 74-87).
`content[:max_length-3]` is a negative slice when `max_length < 3`,
which Python reads from the end. -/
def truncate_content (content : String) (maxLength : Nat := 100) : String :=
  if content.length ≤ maxLength then content
  else if 3 ≤ maxLength then pyTakeStr content (maxLength - 3) ++ "..."
  else pyTakeStr content (content.length - (3 - maxLength)) ++ "..."

/-- `summarize_with_openai_async` (utils.py lines 134-151): issues one
call; on success returns the stripped response text, on ANY exception
(in particular a transport failure) catches it and returns the input
content truncated to `max_tokens` characters.  Returns the new call
counter. -/
def summarize (llm : LLM) (content : String) (maxTokens : Nat) (k : Nat) :
    String × Nat :=
  match llm.resp k with
  | Except.ok r => (pyStripStr r, k + 1)
  | Except.error _ => (truncate_content content maxTokens, k + 1)

/-- `[point.strip() for point in s.split("\n") if point.strip()]`. -/
def splitClean (s : String) : List String :=
  ((splitNl s.toList []).map (fun p => String.mk (pyStrip p))).filter
    (fun p => p ≠ "")

/-- `"\n".join(xs)`. -/
def joinNlL (xs : List String) : String := String.intercalate "\n" xs

/-- Python single-quote used by `str()` of lists and dicts. -/
def pyQ (s : String) : String := "\x27" ++ s ++ "\x27"

/-- `str(xs)` for a list of strings. -/
def pyStrList (xs : List String) : String :=
  "[" ++ String.intercalate ", " (xs.map pyQ) ++ "]"

/-- `str(v)` / f-string rendering of a content value. -/
def pyStrContent : List String ⊕ String → String
  | Sum.inl xs => pyStrList xs
  | Sum.inr s => s

/-- `str(v)` / f-string rendering of a teaching-points value. -/
def pyStrTP : String ⊕ List String → String
  | Sum.inl s => s
  | Sum.inr xs => pyStrList xs

/-- Rendering of a content value inside a dict repr (strings get
quoted). -/
def reprContent : List String ⊕ String → String
  | Sum.inl xs => pyStrList xs
  | Sum.inr s => pyQ s

/-- Rendering of a teaching-points value inside a dict repr. -/
def reprTP : String ⊕ List String → String
  | Sum.inl s => pyQ s
  | Sum.inr xs => pyStrList xs

/-- `str(slide)` for a slide dict, keys in insertion order. -/
def pyStrSlide (s : ASlide) : String :=
  "\x7b" ++ pyQ "number" ++ ": " ++ pyQ s.number ++ ", " ++
    pyQ "title" ++ ": " ++ pyQ s.title ++
    (match s.content with
     | none => ""
     | some c => ", " ++ pyQ "content" ++ ": " ++ reprContent c) ++
    (match s.teaching_points with
     | none => ""
     | some t => ", " ++ pyQ "teaching_points" ++ ": " ++ reprTP t) ++
    "\x7d"

/-- Expansion prompt for slide content (Japanese preamble abbreviated to
a marker). -/
def expandContentPrompt (t : String) : String := "EXPAND_CONTENT:\n" ++ t

/-- Expansion prompt for teaching points (preamble abbreviated). -/
def expandPointsPrompt (t : String) : String := "EXPAND_POINTS:\n" ++ t

/-- The five-bullet compression prompt (utils.py line 218). -/
def compressFivePrompt (t : String) : String :=
  "以下の内容を5つの重要なポイントにまとめてください：\n" ++ t

/-- `points_text`: the teaching points as one string (join if a list). -/
def pointsText : String ⊕ List String → String
  | Sum.inl s => s
  | Sum.inr xs => joinNlL xs

/-- One line of `combined_slides` (utils.py lines 243-246): slide
number, title, and the f-string renderings of the optional content and
teaching points (empty string when absent). -/
def slideLine (s : ASlide) : String :=
  "スライド " ++ s.number ++ ": " ++ s.title ++ "\n" ++
    (match s.content with | none => "" | some c => pyStrContent c) ++ "\n" ++
    (match s.teaching_points with | none => "" | some t => pyStrTP t)

/-- The section resummarization prompt (template abbreviated to a
marker around `combined_slides`). -/
def resummarizePrompt (slides : List ASlide) : String :=
  "RESUMMARIZE_TO_10:\n" ++
    String.intercalate "\n\n" (slides.map slideLine)

/-- Counter-threaded map: the calls of successive elements use
successive oracle indices. -/
def mapCounter (f : α → Nat → β × Nat) : List α → Nat → List β × Nat
  | [], k => ([], k)
  | a :: l, k =>
    ((f a k).1 :: (mapCounter f l (f a k).2).1,
      (mapCounter f l (f a k).2).2)

/-- Expansion pass over one slide (utils.py lines 163-194): content is
expanded only when present and a list; teaching points whenever
present (becoming a list). -/
def expandSlide (llm : LLM) (sl : ASlide) (k : Nat) : ASlide × Nat :=
  let p1 : Option (List String ⊕ String) × Nat :=
    match sl.content with
    | some (Sum.inl xs) =>
      let e := summarize llm (expandContentPrompt (joinNlL xs)) 300 k
      (some (Sum.inl (splitClean e.1)), e.2)
    | c => (c, k)
  let p2 : Option (String ⊕ List String) × Nat :=
    match sl.teaching_points with
    | some tp =>
      let e := summarize llm (expandPointsPrompt (pointsText tp)) 200 p1.2
      (some (Sum.inr (splitClean e.1)), e.2)
    | none => (none, p1.2)
  ({ sl with content := p1.1, teaching_points := p2.1 }, p2.2)

/-- Per-slide compression pass (utils.py lines 204-235): list content is
summarized (and additionally compressed to at most 5 bullets when
longer than 5); scalar content is summarized to a string; teaching
points become a summarized string. -/
def compressSlide (llm : LLM) (sl : ASlide) (k : Nat) : ASlide × Nat :=
  let p1 : Option (List String ⊕ String) × Nat :=
    match sl.content with
    | some (Sum.inl xs) =>
      let e1 := summarize llm (joinNlL xs) 150 k
      if 5 < xs.length then
        let e2 := summarize llm (compressFivePrompt (joinNlL xs)) 200 e1.2
        (some (Sum.inl ((splitClean e2.1).take 5)), e2.2)
      else (some (Sum.inl (splitClean e1.1)), e1.2)
    | some (Sum.inr s) =>
      let e1 := summarize llm s 100 k
      (some (Sum.inr e1.1), e1.2)
    | none => (none, k)
  let p2 : Option (String ⊕ List String) × Nat :=
    match sl.teaching_points with
    | some tp =>
      let e3 := summarize llm (pyStrTP tp) 200 p1.2
      (some (Sum.inl e3.1), e3.2)
    | none => (none, p1.2)
  ({ sl with content := p1.1, teaching_points := p2.1 }, p2.2)

/-- Apply a per-slide pass to every slide of every section, in order. -/
def mapSlides (f : ASlide → Nat → ASlide × Nat) (secs : List ASection)
    (k : Nat) : List ASection × Nat :=
  mapCounter (fun sec k =>
    (({ sec with slides := (mapCounter f sec.slides k).1 } : ASection),
      (mapCounter f sec.slides k).2)) secs k

/-- An item of the parsed resummarization data fed to
`create_slide_dict`: a dict (fields read through `.get`), a string, or
anything else. -/
inductive PyItem where
  | idict (title : Option String) (content : Option (List String ⊕ String))
      (tp : Option (String ⊕ List String))
  | istr (s : String)
  | iother
deriving DecidableEq

/-- The shapes of `yaml.safe_load(summarized_slides)` the code inspects
(utils.py lines 286-297): a dict with a `slides` key, a dict without
one, a bare list, or any other value (rendered with `str`). -/
inductive PyYaml where
  | ydictSlides (items : List PyItem)
  | ydictPlain (title : Option String)
      (content : Option (List String ⊕ String))
      (tp : Option (String ⊕ List String))
  | ylist (items : List PyItem)
  | yother (rendering : String)
deriving DecidableEq

/-- `slides_data` (utils.py lines 286-297). -/
def slidesData : PyYaml → List PyItem
  | PyYaml.ydictSlides items => items
  | PyYaml.ydictPlain t c p => [PyItem.idict t c p]
  | PyYaml.ylist items => items
  | PyYaml.yother s => [PyItem.istr s]

/-- `create_slide_dict(slide_data, index)` (utils.py lines 263-284). -/
def create_slide_dict (item : PyItem) (i : Nat) : ASlide :=
  match item with
  | PyItem.idict t c p =>
    { number := toString (i + 1), title := t.getD "",
      content := some (c.getD (Sum.inl [])),
      teaching_points := some (p.getD (Sum.inl "")) }
  | PyItem.istr s =>
    { number := toString (i + 1), title := s,
      content := some (Sum.inl []), teaching_points := some (Sum.inl "") }
  | PyItem.iother =>
    { number := toString (i + 1), title := "スライド " ++ toString (i + 1),
      content := some (Sum.inl []), teaching_points := some (Sum.inl "") }

/-- The degraded fallback when the resummarization response cannot be
processed (utils.py lines 307-315): placeholder slides from
`slides[:10]`, each titled `str(slide)` — the string rendering of the
whole original slide dict — with empty content. -/
def fallbackSlides (slides : List ASlide) : List ASlide :=
  (slides.take 10).enum.map (fun p =>
    ({ number := toString (p.1 + 1), title := pyStrSlide p.2,
       content := some (Sum.inl []),
       teaching_points := some (Sum.inl "") } : ASlide))

/-- Section-level resummarization (utils.py lines 240-315), applied to
a section when the document is still oversized: a section with more
than 10 slides gets one summarization call; the parsed data (whatever
its length) replaces the slide list, with the degraded fallback on a
parse or processing error. -/
def resummarizeSection (llm : LLM) (parse : String → Option PyYaml)
    (sec : ASection) (k : Nat) : ASection × Nat :=
  if 10 < sec.slides.length then
    match parse (summarize llm (resummarizePrompt sec.slides) 1000 k).1 with
    | some py =>
      (({ sec with slides :=
          (slidesData py).enum.map (fun p => create_slide_dict p.2 p.1) } :
        ASection), (summarize llm (resummarizePrompt sec.slides) 1000 k).2)
    | none =>
      (({ sec with slides := fallbackSlides sec.slides } : ASection),
        (summarize llm (resummarizePrompt sec.slides) 1000 k).2)
  else (sec, k)

/-- `adjust_yaml_size_async` (utils.py lines 153-317): expand below
8000 bytes, return unchanged up to `max_chars`, otherwise compress per
slide, re-measure, and resummarize oversized sections. -/
def adjust_yaml_size (llm : LLM) (parse : String → Option PyYaml)
    (size : ADoc → Nat) (doc : ADoc) (maxChars : Nat := 10000)
    (k : Nat := 0) : ADoc × Nat :=
  if size doc < 8000 then
    (({ doc with sections := (mapSlides (expandSlide llm) doc.sections k).1 } :
      ADoc), (mapSlides (expandSlide llm) doc.sections k).2)
  else if size doc ≤ maxChars then (doc, k)
  else
    if maxChars < size ({ doc with sections :=
        (mapSlides (compressSlide llm) doc.sections k).1 } : ADoc) then
      (({ doc with sections :=
          (mapCounter (resummarizeSection llm parse)
            (mapSlides (compressSlide llm) doc.sections k).1
            (mapSlides (compressSlide llm) doc.sections k).2).1 } : ADoc),
        (mapCounter (resummarizeSection llm parse)
          (mapSlides (compressSlide llm) doc.sections k).1
          (mapSlides (compressSlide llm) doc.sections k).2).2)
    else (({ doc with sections :=
        (mapSlides (compressSlide llm) doc.sections k).1 } : ADoc),
      (mapSlides (compressSlide llm) doc.sections k).2)

/-! ### Helper lemmas for the adjuster -/

lemma mapCounter_length (f : α → Nat → β × Nat) :
    ∀ (l : List α) (k : Nat), ((mapCounter f l k).1).length = l.length := by
  intro l
  induction l with
  | nil => intro k; rfl
  | cons a l ih =>
    intro k
    rw [mapCounter]
    simp only [List.length_cons]
    rw [ih]

lemma mapCounter_forall₂ {R : α → β → Prop} (f : α → Nat → β × Nat)
    (hf : ∀ a k, R a (f a k).1) :
    ∀ (l : List α) (k : Nat), List.Forall₂ R l (mapCounter f l k).1 := by
  intro l
  induction l with
  | nil => intro k; exact List.Forall₂.nil
  | cons a l ih =>
    intro k
    rw [mapCounter]
    exact List.Forall₂.cons (hf a k) (ih _)

lemma forall₂_comp {R : α → β → Prop} {S : β → γ → Prop} {T : α → γ → Prop}
    (h : ∀ a b c, R a b → S b c → T a c) :
    ∀ {la : List α} {lb : List β} {lc : List γ},
      List.Forall₂ R la lb → List.Forall₂ S lb lc → List.Forall₂ T la lc := by
  intro la lb lc hab hbc
  induction hab generalizing lc with
  | nil =>
    cases hbc
    exact List.Forall₂.nil
  | cons hr _ ih =>
    cases hbc with
    | cons hs hrest => exact List.Forall₂.cons (h _ _ _ hr hs) (ih hrest)

/-- A per-slide pass leaves every section with the same number of
slides. -/
lemma mapSlides_nonempty (f : ASlide → Nat → ASlide × Nat)
    (secs : List ASection) (k : Nat) :
    List.Forall₂ (fun (s t : ASection) => s.slides ≠ [] → t.slides ≠ [])
      secs (mapSlides f secs k).1 := by
  refine mapCounter_forall₂ _ (fun sec k => ?_) secs k
  intro hne hcon
  refine hne (List.length_eq_zero.mp ?_)
  have hlen := congrArg List.length hcon
  rw [mapCounter_length] at hlen
  simpa using hlen

/-! ### Claim C4 -/

/-- C4: a document measuring at least 8000 and at most `max_chars`
bytes is returned unchanged by the size adjuster, and no LLM call is
issued (the call counter is returned untouched). -/
theorem adjust_unchanged_in_band (llm : LLM) (parse : String → Option PyYaml)
    (size : ADoc → Nat) (doc : ADoc) (maxChars k : Nat)
    (h1 : 8000 ≤ size doc) (h2 : size doc ≤ maxChars) :
    adjust_yaml_size llm parse size doc maxChars k = (doc, k) := by
  rw [adjust_yaml_size, if_neg (by omega), if_pos h2]

/-- A fixed oracle whose every call succeeds with `"x"`. -/
def llmOk : LLM := ⟨fun _ => Except.ok "x"⟩

/-- A parse function that always fails. -/
def parseNone : String → Option PyYaml := fun _ => none

/-- A small well-formed document. -/
def doc4 : ADoc :=
  { lecture_name := "L",
    sections := [{
      number := "1", name := "A",
      slides := [{
        number := "1", title := "t", content := none,
        teaching_points := none }] }] }

/-- Witness for C4 at a document measuring 9000 bytes. -/
theorem adjust_unchanged_in_band_witness :
    adjust_yaml_size llmOk parseNone (fun _ => 9000) doc4 10000 0 = (doc4, 0) :=
  adjust_unchanged_in_band llmOk parseNone (fun _ => 9000) doc4 10000 0
    (by decide) (by decide)

/-! ### Claim C8 -/

/-- C8 (amended): a transport failure during a Size Adjuster
summarization call does NOT propagate: `summarize_with_openai_async`
catches the exception and returns the input content truncated to
`max_tokens` characters, and the pipeline continues with that text. -/
theorem summarize_transport_fallback (llm : LLM) (e : TransportError)
    (k : Nat) (h : llm.resp k = Except.error e) (content : String)
    (maxTokens : Nat) :
    summarize llm content maxTokens k =
      (truncate_content content maxTokens, k + 1) := by
  rw [summarize, h]

/-- An oracle whose every call fails with a transport error. -/
def llmFail : LLM := ⟨fun _ => Except.error ⟨"TransportError"⟩⟩

/-- Witness for the amended C8: a failed call returns the truncated
input (`"abcdefgh"` truncated to 5 characters is `"ab..."`). -/
theorem summarize_transport_fallback_witness :
    summarize llmFail "abcdefgh" 5 0 = (truncate_content "abcdefgh" 5, 1) :=
  summarize_transport_fallback llmFail ⟨"TransportError"⟩ 0 rfl "abcdefgh" 5

/-- A document with one list-content slide. -/
def doc8 : ADoc :=
  { lecture_name := "L",
    sections := [{
      number := "1", name := "A",
      slides := [{
        number := "1", title := "t",
        content := some (Sum.inl ["hello"]),
        teaching_points := none }] }] }

/-- Counterexample to C8 as frozen: with a transport failure on the
expansion call, the adjuster COMPLETES (no error propagates, no abort)
and the slide content is silently replaced by the split of the
truncated prompt — truncation outside the documented
degraded-resummarization fallback. -/
theorem transport_failure_counterexample :
    adjust_yaml_size llmFail parseNone (fun _ => 100) doc8 10000 0 =
      ({ lecture_name := "L",
         sections := [{
           number := "1", name := "A",
           slides := [{
             number := "1", title := "t",
             content := some (Sum.inl ["EXPAND_CONTENT:", "hello"]),
             teaching_points := none }] }] }, 1) ∧
    ["EXPAND_CONTENT:", "hello"] =
      splitClean (truncate_content (expandContentPrompt "hello") 300) ∧
    ["EXPAND_CONTENT:", "hello"] ≠ ["hello"] := by
  refine ⟨by decide, by decide, by decide⟩

/-! ### Claims C5 and C9: section-level resummarization -/

/-- C5 (amended): when the resummarization response of a section with
more than 10 slides fails to parse, the adjuster does not raise (the
model is a total function): the section's slides are replaced by exactly
10 placeholder slides whose titles are `str(slide)` — the Python string
rendering of each of the first 10 original slide dicts, NOT the
original titles — with empty content and empty teaching points. -/
theorem resummarize_parse_failure (llm : LLM) (parse : String → Option PyYaml)
    (sec : ASection) (k : Nat) (hlen : 10 < sec.slides.length)
    (hfail : parse (summarize llm (resummarizePrompt sec.slides) 1000 k).1
      = none) :
    (resummarizeSection llm parse sec k).1 =
      { sec with slides := fallbackSlides sec.slides } ∧
    (fallbackSlides sec.slides).map (fun s => s.title) =
      (sec.slides.take 10).map pyStrSlide ∧
    (fallbackSlides sec.slides).length = 10 ∧
    ∀ s ∈ fallbackSlides sec.slides,
      s.content = some (Sum.inl []) ∧
      s.teaching_points = some (Sum.inl "") := by
  refine ⟨?_, ?_, ?_, ?_⟩
  · rw [resummarizeSection, if_pos hlen, hfail]
  · rw [fallbackSlides, List.map_map]
    rw [show ((fun s : ASlide => s.title) ∘ fun p : Nat × ASlide =>
        ({ number := toString (p.1 + 1), title := pyStrSlide p.2,
           content := some (Sum.inl []),
           teaching_points := some (Sum.inl "") } : ASlide)) =
        (pyStrSlide ∘ Prod.snd) from rfl]
    rw [← List.map_map, List.enum_map_snd]
  · rw [fallbackSlides, List.length_map, List.enum_length,
      List.length_take]
    omega
  · intro s hs
    obtain ⟨p, _, rfl⟩ := List.mem_map.mp hs
    exact ⟨rfl, rfl⟩

/-- A section of eleven slides titled "T". -/
def sec11 : ASection :=
  { number := "1", name := "A",
    slides := (List.range 11).map (fun i =>
      ({ number := toString (i + 1), title := "T", content := none,
         teaching_points := none } : ASlide)) }

/-- Witness for the amended C5. -/
theorem resummarize_parse_failure_witness :
    (fallbackSlides sec11.slides).length = 10 :=
  (resummarize_parse_failure llmOk parseNone sec11 0 (by decide) rfl).2.2.1

/-- The document around `sec11`. -/
def doc5 : ADoc := { lecture_name := "L", sections := [sec11] }

/-- Counterexample to C5 as frozen: the placeholder titles are the
`str(...)` renderings of the whole original slide dicts (for example
`"{'number': '1', 'title': 'T'}"`), not the original titles (`"T"`). -/
theorem resummarize_title_counterexample :
    ((adjust_yaml_size llmOk parseNone (fun _ => 12000) doc5 10000 0).1.sections.map
      (fun sec => sec.slides.map (fun sl => sl.title))) =
      [(sec11.slides.take 10).map pyStrSlide] ∧
    (sec11.slides.take 10).map pyStrSlide ≠
      (sec11.slides.take 10).map (fun sl => sl.title) := by
  refine ⟨by decide, by decide⟩

lemma create_slide_dict_number (item : PyItem) (i : Nat) :
    (create_slide_dict item i).number = toString (i + 1) := by
  cases item <;> rfl

/-- C9 (amended): for a still-oversized document, a section with more
than 10 slides has its slide list replaced by the PARSED sequence —
however many items the model returned, not necessarily 10 — renumbered
`1..k` where `k` is the parsed item count. -/
theorem resummarize_parse_success (llm : LLM) (parse : String → Option PyYaml)
    (sec : ASection) (k : Nat) (py : PyYaml)
    (hlen : 10 < sec.slides.length)
    (hok : parse (summarize llm (resummarizePrompt sec.slides) 1000 k).1
      = some py) :
    (resummarizeSection llm parse sec k).1 =
      { sec with slides :=
          (slidesData py).enum.map (fun p => create_slide_dict p.2 p.1) } ∧
    (resummarizeSection llm parse sec k).1.slides.length =
      (slidesData py).length ∧
    (resummarizeSection llm parse sec k).1.slides.map (fun s => s.number) =
      seqNumbers (slidesData py).length := by
  have h1 : (resummarizeSection llm parse sec k).1 =
      { sec with slides :=
          (slidesData py).enum.map (fun p => create_slide_dict p.2 p.1) } := by
    rw [resummarizeSection, if_pos hlen, hok]
  refine ⟨h1, ?_, ?_⟩
  · rw [h1]
    simp [List.enum_length]
  · rw [h1]
    show ((slidesData py).enum.map (fun p => create_slide_dict p.2 p.1)).map
        (fun s => s.number) = seqNumbers (slidesData py).length
    rw [List.map_map]
    rw [List.map_congr_left (g := fun p : Nat × PyItem => toString (p.1 + 1))
      (fun p _ => by
        simp only [Function.comp_apply]
        exact create_slide_dict_number p.2 p.1)]
    rw [seqNumbers, ← List.enum_map_fst (slidesData py), List.map_map]
    rfl

/-- A parse result that is a bare two-element list. -/
def parseL2 : String → Option PyYaml :=
  fun _ => some (PyYaml.ylist [PyItem.istr "s1", PyItem.istr "s2"])

/-- Witness for the amended C9. -/
theorem resummarize_parse_success_witness :
    (resummarizeSection llmOk parseL2 sec11 0).1.slides.map
      (fun s => s.number) =
    seqNumbers (slidesData
      (PyYaml.ylist [PyItem.istr "s1", PyItem.istr "s2"])).length :=
  (resummarize_parse_success llmOk parseL2 sec11 0 _ (by decide) rfl).2.2

/-- A section of twelve slides, as in the spec's oversize scenario. -/
def sec12 : ASection :=
  { number := "1", name := "A",
    slides := (List.range 12).map (fun i =>
      ({ number := toString (i + 1), title := "T", content := none,
         teaching_points := none } : ASlide)) }

/-- The 12-slide document of the spec scenario. -/
def doc9 : ADoc := { lecture_name := "L", sections := [sec12] }

/-- Counterexample to C9 as frozen: a parseable response with 2 items
leaves the section with 2 slides, not "exactly 10". -/
theorem resummarize_count_counterexample :
    ((adjust_yaml_size llmOk parseL2 (fun _ => 12000) doc9 10000 0).1.sections.map
      (fun sec => sec.slides.length)) = [2] ∧
    doc9.sections.map (fun sec => sec.slides.length) = [12] ∧
    (2 : Nat) ≠ 10 := by
  refine ⟨by decide, by decide, by decide⟩

/-! ### Claim C6 -/

/-- C6 (amended): the adjuster always preserves `lecture_name`, and
every section with at least one slide keeps at least one slide PROVIDED
every successful resummarization parse yields a non-empty
`slides_data`; a response parsing to an empty list empties the
section. -/
theorem adjust_preserves_lecture_and_slides (llm : LLM)
    (parse : String → Option PyYaml) (size : ADoc → Nat) (doc : ADoc)
    (maxChars k : Nat)
    (hparse : ∀ s py, parse s = some py → slidesData py ≠ []) :
    (adjust_yaml_size llm parse size doc maxChars k).1.lecture_name =
      doc.lecture_name ∧
    List.Forall₂ (fun (s t : ASection) => s.slides ≠ [] → t.slides ≠ [])
      doc.sections
      (adjust_yaml_size llm parse size doc maxChars k).1.sections := by
  have hres : ∀ (sec : ASection) (k : Nat), sec.slides ≠ [] →
      ((resummarizeSection llm parse sec k).1).slides ≠ [] := by
    intro sec k hne
    rw [resummarizeSection]
    by_cases hlen : 10 < sec.slides.length
    · rw [if_pos hlen]
      cases hp : parse (summarize llm (resummarizePrompt sec.slides) 1000 k).1 with
      | none =>
        simp only
        intro hcon
        have := congrArg List.length hcon
        rw [fallbackSlides, List.length_map, List.enum_length,
          List.length_take, List.length_nil] at this
        omega
      | some py =>
        simp only
        intro hcon
        have := congrArg List.length hcon
        rw [List.length_map, List.enum_length, List.length_nil] at this
        exact hparse _ py hp (List.length_eq_zero.mp this)
    · rw [if_neg hlen]
      exact hne
  rw [adjust_yaml_size]
  by_cases h1 : size doc < 8000
  · rw [if_pos h1]
    exact ⟨rfl, mapSlides_nonempty _ doc.sections k⟩
  · rw [if_neg h1]
    by_cases h2 : size doc ≤ maxChars
    · rw [if_pos h2]
      refine ⟨rfl, List.forall₂_same.mpr (fun x _ h => h)⟩
    · rw [if_neg h2]
      by_cases h3 : maxChars < size ({ doc with sections :=
          (mapSlides (compressSlide llm) doc.sections k).1 } : ADoc)
      · rw [if_pos h3]
        refine ⟨rfl, ?_⟩
        refine forall₂_comp
          (R := fun (s t : ASection) => s.slides ≠ [] → t.slides ≠ [])
          (S := fun (s t : ASection) => s.slides ≠ [] → t.slides ≠ [])
          (T := fun (s t : ASection) => s.slides ≠ [] → t.slides ≠ [])
          (fun a b c hab hbc => fun h => hbc (hab h))
          (mapSlides_nonempty (compressSlide llm) doc.sections k) ?_
        exact mapCounter_forall₂ _ (fun sec k => hres sec k) _ _
      · rw [if_neg h3]
        exact ⟨rfl, mapSlides_nonempty _ doc.sections k⟩

/-- Witness for the amended C6 (the parse hypothesis holds vacuously
for the always-failing parse). -/
theorem adjust_preserves_lecture_and_slides_witness :
    (adjust_yaml_size llmOk parseNone (fun _ => 12000) doc5 10000 0).1.lecture_name
      = doc5.lecture_name ∧
    List.Forall₂ (fun (s t : ASection) => s.slides ≠ [] → t.slides ≠ [])
      doc5.sections
      (adjust_yaml_size llmOk parseNone (fun _ => 12000) doc5 10000 0).1.sections :=
  adjust_preserves_lecture_and_slides llmOk parseNone (fun _ => 12000) doc5
    10000 0 (fun s py h => by simp [parseNone] at h)

/-- A parse result that is an empty YAML list. -/
def parseEmptyList : String → Option PyYaml :=
  fun _ => some (PyYaml.ylist [])

/-- Counterexample to C6 as frozen: a resummarization response that
parses to an empty list (`"[]"`) leaves a previously 11-slide section
with ZERO slides, although `lecture_name` is still preserved. -/
theorem adjust_empty_parse_counterexample :
    ((adjust_yaml_size llmOk parseEmptyList (fun _ => 12000) doc5 10000 0).1.sections.map
      (fun s => s.slides.length)) = [0] ∧
    doc5.sections.map (fun s => s.slides.length) = [11] ∧
    (adjust_yaml_size llmOk parseEmptyList (fun _ => 12000) doc5 10000 0).1.lecture_name
      = "L" := by
  refine ⟨by decide, by decide, by decide⟩

/-! ## Chunk Analyzer aggregation (utils.py lines 332-363)

`asyncio.gather(*tasks, return_exceptions=True)` returns the outcomes
in task (chunk-index) order regardless of completion order; the i-th
entry of `results` below is the outcome of chunk i.  The error check
collects the exceptions among the outcomes and raises one aggregate
exception carrying their count; only when there is none is the ordered
result list returned. -/

/-- The aggregate failure raised by `process_all_parts`: the message
carries `len(errors)`; the details are also available. -/
structure AggregateAnalysisError where
  count : Nat
  details : List String
deriving DecidableEq

/-- `errors = [r for r in results if isinstance(r, Exception)]`. -/
def errorsOf (results : List (Except String ChunkResult)) : List String :=
  results.filterMap (fun r => match r with
    | Except.error e => some e
    | Except.ok _ => none)

/-- `process_all_parts` after the gather: raise the aggregate error if
any chunk failed, otherwise return the results in chunk order. -/
def analyzeAll (results : List (Except String ChunkResult)) :
    Except AggregateAnalysisError (List ChunkResult) :=
  if errorsOf results = [] then
    Except.ok (results.filterMap (fun r => match r with
      | Except.ok v => some v
      | Except.error _ => none))
  else Except.error ⟨(errorsOf results).length, errorsOf results⟩

lemma errorsOf_map_ok (vals : List ChunkResult) :
    errorsOf (vals.map Except.ok) = [] := by
  induction vals with
  | nil => rfl
  | cons v vals ih =>
    rw [List.map_cons, errorsOf, List.filterMap_cons]
    exact ih

lemma values_map_ok (vals : List ChunkResult) :
    (vals.map Except.ok).filterMap
      (fun r : Except String ChunkResult => match r with
        | Except.ok v => some v
        | Except.error _ => none) = vals := by
  induction vals with
  | nil => rfl
  | cons v vals ih =>
    rw [List.map_cons, List.filterMap_cons]
    simp only
    rw [ih]

/-- C7: if at least one per-chunk analysis fails, the whole analysis
step fails with a single aggregate error carrying the number of
underlying failures and no partial result list; if every chunk
succeeds, the values are returned in original chunk-index order. -/
theorem analyzeAll_aggregate_or_ordered
    (results : List (Except String ChunkResult)) :
    (errorsOf results ≠ [] → analyzeAll results =
      Except.error ⟨(errorsOf results).length, errorsOf results⟩) ∧
    (∀ vals : List ChunkResult, results = vals.map Except.ok →
      analyzeAll results = Except.ok vals) := by
  constructor
  · intro h
    rw [analyzeAll, if_neg h]
  · rintro vals rfl
    rw [analyzeAll, if_pos (errorsOf_map_ok vals), values_map_ok]

/-- A trivial chunk result. -/
def ck0 : ChunkResult := { lecture_name := none, sections := [] }

/-- Witness for C7: one failing chunk among three aggregates to a
single-error failure; an all-success run returns the values in order. -/
theorem analyzeAll_aggregate_or_ordered_witness :
    analyzeAll [Except.ok ck0, Except.error "TransportError", Except.ok ck0] =
      Except.error ⟨1, ["TransportError"]⟩ ∧
    analyzeAll [Except.ok ck0] = Except.ok [ck0] :=
  ⟨(analyzeAll_aggregate_or_ordered
      [Except.ok ck0, Except.error "TransportError", Except.ok ck0]).1
    (by decide),
   (analyzeAll_aggregate_or_ordered [Except.ok ck0]).2 [ck0] rfl⟩

end S2S
